import Mathlib

/-!
# Verification of the SkillOne learning-path engine

Shallow embedding of `src/SkillOne/backend/main.py` (the path-generation
engine of the `/api/generate-learning-path` endpoint) and proofs about it.

The ML text-similarity stage (TF-IDF + sentence embeddings, lines 154-187)
is an opaque numeric capability: the engine is modelled as a function of the
catalog, the learner profile, and the pre-boost `combined_scores` array
(`raw` below), exactly as the code consumes them from line 187 onward.
Python floats are modelled as exact rationals `ℚ`; every property proved
here concerns signs, orderings and multiplications by the constants
1.3, 1.2, 1.1, which are faithful under this abstraction.
-/

/-- A catalog row, as read from the `courses` table.  Fields accessed with
`course.get(key, default)` in the code are `Option`s here (`none` models a
missing key). Mirrors the dict fields used by `main.py`. -/
structure Course where
  id : String
  title : Option String := none
  description : Option String := none
  tags : Option (List String) := none
  education_level : Option String := none
  difficulty_level : Option String := none
  prerequisite_course_ids : List String := []
deriving DecidableEq, Repr

instance : Inhabited Course := ⟨{ id := "" }⟩

/-- `LearnerProfile` pydantic model, `main.py` lines 70-76. -/
structure LearnerProfile where
  learner_id : String
  career_goal : String
  education_level : String
  desired_skills : List String
  interests : Option (List String) := none
  proficiency_level : String := "Beginner"
deriving DecidableEq, Repr

/-- `courses[i]` (list indexing; indices used by the engine are always in
range, so the default is never observable on the code paths we model). -/
def getCourse (courses : List Course) (i : Nat) : Course :=
  courses.getD i default

/-- `level_mapping` dict, `main.py` lines 190-195. `none` models a key
missing from the dict. -/
def level_mapping (s : String) : Option Nat :=
  if s = "High School" then some 1
  else if s = "Undergraduate" then some 2
  else if s = "Graduate" then some 3
  else if s = "Professional" then some 4
  else none

/-- `difficulty_mapping` dict, `main.py` lines 196-200. -/
def difficulty_mapping (s : String) : Option Nat :=
  if s = "Beginner" then some 1
  else if s = "Intermediate" then some 2
  else if s = "Advanced" then some 3
  else none

/-- `learner_level = level_mapping.get(profile.education_level, 2)`,
`main.py` line 202. -/
def learnerLevel (profile : LearnerProfile) : Nat :=
  (level_mapping profile.education_level).getD 2

/-- `level_mapping.get(course.get('education_level', 'Undergraduate'), 2)`,
`main.py` lines 205-208. -/
def courseLevel (c : Course) : Nat :=
  (level_mapping (c.education_level.getD "Undergraduate")).getD 2

/-- `difficulty_mapping.get(course.get('difficulty_level', 'Beginner'), 1)`,
`main.py` lines 209-212. -/
def courseDifficulty (c : Course) : Nat :=
  (difficulty_mapping (c.difficulty_level.getD "Beginner")).getD 1

/-- The in-place boosting of `combined_scores[i]`, `main.py` lines 214-222:
`*= 1.3` on education match, then `*= 1.2` or `*= 1.1` by the
beginner/advanced difficulty rule. -/
def boostScore (learner_level : Nat) (c : Course) (s : ℚ) : ℚ :=
  let course_level := courseLevel c
  let course_difficulty := courseDifficulty c
  let s1 := if ((course_level : ℤ) - (learner_level : ℤ)).natAbs ≤ 1
    then s * (13 / 10) else s
  if learner_level = 1 ∧ course_difficulty = 1 then s1 * (6 / 5)
  else if 2 ≤ learner_level ∧ 2 ≤ course_difficulty then s1 * (11 / 10)
  else s1

/-- Post-boost score of course index `i` (`course_scores[i]`, line 244):
the raw combined similarity boosted in place. -/
def boosted (courses : List Course) (learner_level : Nat) (raw : List ℚ)
    (i : Nat) : ℚ :=
  boostScore learner_level (getCourse courses i) (raw.getD i 0)

/-- `course_id_map = {course['id']: i for i, course in enumerate(courses)}`,
`main.py` line 226. A Python dict comprehension keeps the LAST index for a
repeated id, hence `getLast?` over all matching indices. -/
def course_id_map (courses : List Course) (cid : String) : Option Nat :=
  ((List.range courses.length).filter
    (fun i => (getCourse courses i).id == cid)).getLast?

/-- First-occurrence deduplication, modelling that `networkx.DiGraph`
ignores re-insertion of an existing edge and iterates successors in first
insertion order. -/
def dedupFirst (l : List Nat) : List Nat :=
  l.foldl (fun acc x => if x ∈ acc then acc else acc ++ [x]) []

/-- Successor list of node `j` in the prerequisite graph `G`
(`main.py` lines 225-241): every course whose id maps to `j` contributes
its in-catalog prerequisite indices, in catalog/list order, deduplicated in
insertion order. -/
def successors (courses : List Course) (j : Nat) : List Nat :=
  dedupFirst ((courses.filter (fun c => course_id_map courses c.id == some j)).flatMap
    (fun c => c.prerequisite_course_ids.filterMap (course_id_map courses)))

/-- Stable descending insertion: place `i` before the first element of
strictly smaller score, after all elements with equal or larger score. -/
def insertDesc (score : Nat → ℚ) (i : Nat) : List Nat → List Nat
  | [] => [i]
  | j :: js => if score j < score i then i :: j :: js else j :: insertDesc score i js

/-- `sorted_indices = sorted(range(len(courses)), key=score, reverse=True)`,
`main.py` lines 258-262. Python's sort is stable, so this stable insertion
sort produces the same list. -/
def sorted_indices (courses : List Course) (learner_level : Nat)
    (raw : List ℚ) : List Nat :=
  (List.range courses.length).foldl
    (fun acc i => insertDesc (boosted courses learner_level raw) i acc) []

/-- The `for prereq in G.successors(node): dfs(prereq)` loop body shared by
`dfs`: run `f` on each element in order, short-circuiting on fuel
exhaustion. State is `(visited, path_stack)`. -/
def dfsLoop (f : Nat → List Nat × List Nat → Option (List Nat × List Nat)) :
    List Nat → List Nat × List Nat → Option (List Nat × List Nat)
  | [], st => some st
  | p :: ps, st =>
    match f p st with
    | none => none
    | some st1 => dfsLoop f ps st1

/-- The recursive `dfs` of `main.py` lines 248-255, with explicit fuel
bounding the recursion depth (`none` = fuel exhausted; the totality theorem
shows fuel `n + 1` always suffices, so the Python recursion terminates):
skip visited nodes, otherwise mark visited, recurse into successors, then
append the node to the path stack. -/
def dfs (succ : Nat → List Nat) :
    Nat → Nat → List Nat × List Nat → Option (List Nat × List Nat)
  | 0 => fun _ _ => none
  | fuel + 1 => fun node st =>
    if node ∈ st.1 then some st
    else
      match dfsLoop (fun p st2 => dfs succ fuel p st2) (succ node)
          (node :: st.1, st.2) with
      | none => none
      | some st1 => some (st1.1, st1.2 ++ [node])

/-- `for idx in sorted_indices: if idx not in visited: dfs(idx)`,
`main.py` lines 264-266. -/
def runRoots (f : Nat → List Nat × List Nat → Option (List Nat × List Nat)) :
    List Nat → List Nat × List Nat → Option (List Nat × List Nat)
  | [], st => some st
  | i :: is, st =>
    if i ∈ st.1 then runRoots f is st
    else
      match f i st with
      | none => none
      | some st1 => runRoots f is st1

/-- The whole traversal of `main.py` lines 245-266: empty visited set and
path stack, roots in score-descending order, fuel `n + 1`. -/
def dfsRun (courses : List Course) (learner_level : Nat) (raw : List ℚ) :
    Option (List Nat × List Nat) :=
  runRoots (dfs (successors courses) (courses.length + 1))
    (sorted_indices courses learner_level raw) ([], [])

/-- `path_stack` after the in-place `path_stack.reverse()` of line 268. -/
def pathStackRev (courses : List Course) (learner_level : Nat)
    (raw : List ℚ) : List Nat :=
  ((dfsRun courses learner_level raw).getD ([], [])).2.reverse

/-- The reversed path stack restricted to positive post-boost scores, the
`if course_scores[i] > 0` guard of lines 272-276 and 315-319. -/
def positiveStack (courses : List Course) (learner_level : Nat)
    (raw : List ℚ) : List Nat :=
  (pathStackRev courses learner_level raw).filter
    (fun i => decide (0 < boosted courses learner_level raw i))

/-- `filtered_path`, `main.py` lines 272-276: ids of the positive-score
reversed stack, truncated to the first 12. -/
def filtered_path (courses : List Course) (learner_level : Nat)
    (raw : List ℚ) : List String :=
  ((positiveStack courses learner_level raw).map
    (fun i => (getCourse courses i).id)).take 12

/-- Python-dict insertion: an existing key keeps its position and gets the
new value, a new key is appended. -/
def dictInsert (d : List (String × ℚ)) (k : String) (v : ℚ) :
    List (String × ℚ) :=
  if d.any (fun p => p.1 == k) then
    d.map (fun p => if p.1 == k then (k, v) else p)
  else d ++ [(k, v)]

/-- The response's `scores` dict, `main.py` lines 315-319:
`{str(courses[i]['id']): float(course_scores[i]) for i in path_stack if
course_scores[i] > 0}` over the reversed, untruncated stack. Ids are
strings already, so `str` is the identity on them. -/
def scores_map (courses : List Course) (learner_level : Nat)
    (raw : List ℚ) : List (String × ℚ) :=
  (positiveStack courses learner_level raw).foldl
    (fun d i =>
      dictInsert d (getCourse courses i).id
        (boosted courses learner_level raw i)) []

/-- The `reasoning` f-string of `main.py` lines 292-298. -/
def reasoningText (profile : LearnerProfile) : String :=
  "Learning path generated using hybrid semantic analysis " ++
    "(TF-IDF + embeddings), education/difficulty matching, and " ++
    "prerequisite-aware topological sorting. Matched skills: " ++
    String.intercalate ", " (profile.desired_skills.take 3) ++ ". " ++
    "Career goal: " ++ profile.career_goal

/-- `round(x, 4)` of line 288, on exact rationals: nearest multiple of
1/10000 (Python rounds the nearest binary double half-to-even; on the exact
values used here the abstraction is the standard nearest-integer rounding). -/
def round4 (q : ℚ) : ℚ := (round (q * 10000) : ℚ) / 10000

/-- One entry of `pathway_details`, `main.py` lines 283-290. -/
structure PathwayDetail where
  id : String
  title : String
  difficulty_level : String
  education_level : String
  score : ℚ
  tags : List String
deriving DecidableEq, Repr

/-- `pathway_details`, `main.py` lines 279-290: for each id of the final
path, look the course up through `course_id_map` and expand it. The
lookup's default index 0 is unreachable: every emitted id is in the map. -/
def pathway_details (courses : List Course) (learner_level : Nat)
    (raw : List ℚ) : List PathwayDetail :=
  (filtered_path courses learner_level raw).map (fun cid =>
    let course := getCourse courses ((course_id_map courses cid).getD 0)
    { id := cid
      title := course.title.getD "Untitled"
      difficulty_level := course.difficulty_level.getD "Beginner"
      education_level := course.education_level.getD "Undergraduate"
      score := round4 (boosted courses learner_level raw
        ((course_id_map courses cid).getD 0))
      tags := course.tags.getD [] })

/-- `LearningPathResponse` pydantic model, `main.py` lines 78-83. -/
structure LearningPathResponse where
  learning_path : List String
  scores : List (String × ℚ)
  reasoning : String
  total_courses : Nat
  pathway_details : List PathwayDetail
deriving DecidableEq, Repr

/-- `fastapi.HTTPException`: an HTTP status code plus a detail string. -/
structure HTTPException where
  status_code : Nat
  detail : String
deriving DecidableEq, Repr

/-- The body of the `try:` block of `generate_learning_path`
(`main.py` lines 139-323), after the opaque ML scoring produced `raw`:
the empty-catalog check of lines 149-150 raises a 404, otherwise the
response of lines 313-323 is returned. Persistence calls
(`save_learner_profile`, `save_learning_path`, `log_career_goal`) swallow
their own errors and never alter the result. -/
def generateBody (courses : List Course) (profile : LearnerProfile)
    (raw : List ℚ) : Except HTTPException LearningPathResponse :=
  if courses.isEmpty then
    Except.error { status_code := 404, detail := "No courses found in database" }
  else
    Except.ok
      { learning_path := filtered_path courses (learnerLevel profile) raw
        scores := scores_map courses (learnerLevel profile) raw
        reasoning := reasoningText profile
        total_courses := (filtered_path courses (learnerLevel profile) raw).length
        pathway_details := pathway_details courses (learnerLevel profile) raw }

/-- The whole endpoint, `main.py` lines 130-327. The enclosing
`except Exception as e:` (line 325) catches EVERY exception — including the
`HTTPException(404)` raised at line 150, since fastapi's `HTTPException`
derives from `Exception` — and re-raises it as status 500 with detail
`f"Internal server error: {str(e)}"`, where starlette renders
`str(HTTPException)` as `f"{status_code}: {detail}"`. -/
def generate_learning_path (courses : List Course) (profile : LearnerProfile)
    (raw : List ℚ) : Except HTTPException LearningPathResponse :=
  match generateBody courses profile raw with
  | Except.ok r => Except.ok r
  | Except.error e =>
    Except.error
      { status_code := 500
        detail := "Internal server error: " ++ toString e.status_code ++
          ": " ++ e.detail }

/-- The record handed to `save_learning_path` and inserted into the
`learning_paths` table, `main.py` lines 300-306 and 360-380.  The engine
passes `course_scores` — the dict `{i: float(combined_scores[i])}` keyed by
CATALOG INDEX (line 244) — and the collaborator stringifies those keys:
`{str(k): v for k, v in scores.items()}`. -/
structure LearningPathRecord where
  learner_id : String
  course_sequence : List String
  relevance_scores : List (String × ℚ)
  reasoning : String
deriving DecidableEq, Repr

/-- The persisted learning-path row built by `save_learning_path` from the
arguments of the call at `main.py` lines 301-306. -/
def savedRecord (courses : List Course) (profile : LearnerProfile)
    (raw : List ℚ) : LearningPathRecord :=
  { learner_id := profile.learner_id
    course_sequence := filtered_path courses (learnerLevel profile) raw
    relevance_scores := (List.range courses.length).map
      (fun i => (toString i, boosted courses (learnerLevel profile) raw i))
    reasoning := reasoningText profile }

/-! ## Concrete catalogs and profiles

Small inputs used to instantiate theorems: a learner at each education
level, a two-course catalog with a prerequisite edge, a single course, and
a thirteen-course catalog exceeding the truncation bound. -/

/-- A learner whose education level maps to ordinal 2. -/
def profileU : LearnerProfile :=
  { learner_id := "learner-1", career_goal := "data scientist",
    education_level := "Undergraduate", desired_skills := ["python", "ml"] }

/-- A learner whose education level maps to ordinal 1. -/
def profileHS : LearnerProfile :=
  { learner_id := "learner-2", career_goal := "web developer",
    education_level := "High School", desired_skills := ["html"] }

/-- A learner whose education level is not in the mapping table. -/
def profileX : LearnerProfile :=
  { learner_id := "learner-3", career_goal := "analyst",
    education_level := "Bootcamp", desired_skills := [] }

/-- A course with no prerequisites (the spec's `c1`). -/
def courseC1 : Course := { id := "c1" }

/-- A course listing `c1` as prerequisite (the spec's `c2`). -/
def courseC2 : Course := { id := "c2", prerequisite_course_ids := ["c1"] }

/-- The spec's two-course example catalog: edge c2 → c1 in the graph. -/
def catalogPair : List Course := [courseC1, courseC2]

/-- A one-course catalog. -/
def catalogSolo : List Course := [courseC1]

/-- Thirteen courses with distinct ids and no prerequisites. -/
def cat13 : List Course :=
  ["a", "b", "c", "d", "e", "f", "g", "h", "i", "j", "k", "l", "m"].map
    (fun s => { id := s })

/-- Thirteen strictly increasing raw scores for `cat13`. -/
def raw13 : List ℚ := [1, 2, 3, 4, 5, 6, 7, 8, 9, 10, 11, 12, 13]

/-- A course matching `profileU`'s education ordinal (Graduate = 3). -/
def courseNear : Course :=
  { id := "near", education_level := some "Graduate",
    difficulty_level := some "Beginner" }

/-- A course far from `profileU`'s education ordinal (Professional = 4). -/
def courseFar : Course :=
  { id := "far", education_level := some "Professional",
    difficulty_level := some "Beginner" }

/-! ## DFS traversal invariants

`StepOK v s v' s'` records what one completed traversal step (a `dfs` call,
a successor loop, or the root loop) does to the state: the visited set only
grows and stays duplicate-free, and the path stack is extended by a
duplicate-free block `t` of nodes that were unvisited before and are
visited after, with no other growth of the visited set. -/

def StepOK (v s v' s' : List Nat) : Prop :=
  (∀ x ∈ v, x ∈ v') ∧ (v.Nodup → v'.Nodup) ∧
    ∃ t, s' = s ++ t ∧ t.Nodup ∧ (∀ x ∈ t, x ∉ v ∧ x ∈ v') ∧
      ∀ x ∈ v', x ∈ v ∨ x ∈ t

theorem stepOK_refl (v s : List Nat) : StepOK v s v s :=
  ⟨fun _ h => h, id, [], by simp, List.nodup_nil, by simp, fun x hx => Or.inl hx⟩

theorem stepOK_trans {v s v₁ s₁ v' s' : List Nat} (h₁ : StepOK v s v₁ s₁)
    (h₂ : StepOK v₁ s₁ v' s') : StepOK v s v' s' := by
  obtain ⟨m₁, nd₁, t₁, e₁, tnd₁, tp₁, cov₁⟩ := h₁
  obtain ⟨m₂, nd₂, t₂, e₂, tnd₂, tp₂, cov₂⟩ := h₂
  refine ⟨fun x hx => m₂ x (m₁ x hx), fun h => nd₂ (nd₁ h), t₁ ++ t₂,
    by rw [e₂, e₁, List.append_assoc], ?_, ?_, ?_⟩
  · rw [List.nodup_append]
    refine ⟨tnd₁, tnd₂, fun x hx₁ hx₂ => ?_⟩
    exact (tp₂ x hx₂).1 ((tp₁ x hx₁).2)
  · intro x hx
    rcases List.mem_append.mp hx with h | h
    · exact ⟨(tp₁ x h).1, m₂ x ((tp₁ x h).2)⟩
    · exact ⟨fun hv => (tp₂ x h).1 (m₁ x hv), (tp₂ x h).2⟩
  · intro x hx
    rcases cov₂ x hx with h | h
    · rcases cov₁ x h with h' | h'
      · exact Or.inl h'
      · exact Or.inr (List.mem_append.mpr (Or.inl h'))
    · exact Or.inr (List.mem_append.mpr (Or.inr h))

/-- Every completed successor-loop step satisfies `StepOK` if every
underlying call does. -/
theorem dfsLoop_stepOK
    (f : Nat → List Nat × List Nat → Option (List Nat × List Nat))
    (Hf : ∀ p v s v' s', f p (v, s) = some (v', s') → StepOK v s v' s') :
    ∀ (l : List Nat) (v s v' s' : List Nat),
      dfsLoop f l (v, s) = some (v', s') → StepOK v s v' s' := by
  intro l
  induction l with
  | nil =>
    intro v s v' s' h
    simp only [dfsLoop, Option.some.injEq, Prod.mk.injEq] at h
    rw [← h.1, ← h.2]
    exact stepOK_refl v s
  | cons p ps ih =>
    intro v s v' s' h
    simp only [dfsLoop] at h
    cases hf : f p (v, s) with
    | none => rw [hf] at h; exact absurd h (by simp)
    | some st1 =>
      rw [hf] at h
      exact stepOK_trans (Hf p v s st1.1 st1.2 (by rw [hf])) (ih st1.1 st1.2 v' s' h)

/-- Every completed `dfs` call satisfies `StepOK`. -/
theorem dfs_stepOK (succ : Nat → List Nat) :
    ∀ (fuel node : Nat) (v s v' s' : List Nat),
      dfs succ fuel node (v, s) = some (v', s') → StepOK v s v' s' := by
  intro fuel
  induction fuel with
  | zero => intro node v s v' s' h; simp [dfs] at h
  | succ fuel ih =>
    intro node v s v' s' h
    simp only [dfs] at h
    by_cases hv : node ∈ v
    · rw [if_pos hv] at h
      simp only [Option.some.injEq, Prod.mk.injEq] at h
      rw [← h.1, ← h.2]
      exact stepOK_refl v s
    · rw [if_neg hv] at h
      cases hloop : dfsLoop (fun p st2 => dfs succ fuel p st2) (succ node)
          (node :: v, s) with
      | none => rw [hloop] at h; exact absurd h (by simp)
      | some st1 =>
        rw [hloop] at h
        simp only [Option.some.injEq, Prod.mk.injEq] at h
        obtain ⟨hv', hs'⟩ := h
        have hstep := dfsLoop_stepOK _ (fun p a b c d hc => ih p a b c d hc)
          (succ node) (node :: v) s st1.1 st1.2 (by rw [hloop])
        obtain ⟨m, nd, t, e, tnd, tp, cov⟩ := hstep
        subst hv' hs'
        refine ⟨fun x hx => m x (List.mem_cons_of_mem _ hx),
          fun h => nd (List.nodup_cons.mpr ⟨hv, h⟩), t ++ [node],
          by rw [e, List.append_assoc], ?_, ?_, ?_⟩
        · rw [List.nodup_append]
          refine ⟨tnd, List.nodup_singleton node, fun x hx₁ hx₂ => ?_⟩
        
          rw [List.mem_singleton] at hx₂
          exact (tp x hx₁).1 (hx₂ ▸ List.mem_cons_self node v)
        · intro x hx
          rcases List.mem_append.mp hx with h | h
          · exact ⟨fun hxv => (tp x h).1 (List.mem_cons_of_mem _ hxv), (tp x h).2⟩
          · rw [List.mem_singleton] at h
            subst h
            exact ⟨hv, m x (List.mem_cons_self x v)⟩
        · intro x hx
          rcases cov x hx with h | h
          · rcases List.mem_cons.mp h with h' | h'
            · exact Or.inr (List.mem_append.mpr (Or.inr (by simp [h'])))
            · exact Or.inl h'
          · exact Or.inr (List.mem_append.mpr (Or.inl h))

/-- Every completed root-loop step satisfies `StepOK`. -/
theorem runRoots_stepOK
    (f : Nat → List Nat × List Nat → Option (List Nat × List Nat))
    (Hf : ∀ p v s v' s', f p (v, s) = some (v', s') → StepOK v s v' s') :
    ∀ (l : List Nat) (v s v' s' : List Nat),
      runRoots f l (v, s) = some (v', s') → StepOK v s v' s' := by
  intro l
  induction l with
  | nil =>
    intro v s v' s' h
    simp only [runRoots, Option.some.injEq, Prod.mk.injEq] at h
    rw [← h.1, ← h.2]
    exact stepOK_refl v s
  | cons i is ih =>
    intro v s v' s' h
    simp only [runRoots] at h
    by_cases hv : i ∈ v
    · rw [if_pos hv] at h
      exact ih v s v' s' h
    · rw [if_neg hv] at h
      cases hf : f i (v, s) with
      | none => rw [hf] at h; exact absurd h (by simp)
      | some st1 =>
        rw [hf] at h
        exact stepOK_trans (Hf i v s st1.1 st1.2 (by rw [hf])) (ih st1.1 st1.2 v' s' h)

/-- A completed `dfs` call leaves its node visited. -/
theorem dfs_mem_visited (succ : Nat → List Nat) (fuel node : Nat)
    (v s v' s' : List Nat) (h : dfs succ fuel node (v, s) = some (v', s')) :
    node ∈ v' := by
  cases fuel with
  | zero => simp [dfs] at h
  | succ fuel =>
    simp only [dfs] at h
    by_cases hv : node ∈ v
    · rw [if_pos hv] at h
      simp only [Option.some.injEq, Prod.mk.injEq] at h
      exact h.1 ▸ hv
    · rw [if_neg hv] at h
      cases hloop : dfsLoop (fun p st2 => dfs succ fuel p st2) (succ node)
          (node :: v, s) with
      | none => rw [hloop] at h; exact absurd h (by simp)
      | some st1 =>
        rw [hloop] at h
        simp only [Option.some.injEq, Prod.mk.injEq] at h
        have hstep := dfsLoop_stepOK _
          (fun p a b c d hc => dfs_stepOK succ fuel p a b c d hc)
          (succ node) (node :: v) s st1.1 st1.2 (by rw [hloop])
        exact h.1 ▸ hstep.1 node (List.mem_cons_self node v)

/-- After a completed root loop, every root is visited. -/
theorem runRoots_visits
    (f : Nat → List Nat × List Nat → Option (List Nat × List Nat))
    (Hf : ∀ p v s v' s', f p (v, s) = some (v', s') → StepOK v s v' s')
    (Hmem : ∀ p v s v' s', f p (v, s) = some (v', s') → p ∈ v') :
    ∀ (l : List Nat) (v s v' s' : List Nat),
      runRoots f l (v, s) = some (v', s') → ∀ i ∈ l, i ∈ v' := by
  intro l
  induction l with
  | nil => intro v s v' s' _ i hi; exact absurd hi (List.not_mem_nil i)
  | cons j js ih =>
    intro v s v' s' h i hi
    simp only [runRoots] at h
    by_cases hv : j ∈ v
    · rw [if_pos hv] at h
      rcases List.mem_cons.mp hi with hij | hij
      · exact hij ▸ (runRoots_stepOK f Hf js v s v' s' h).1 j hv
      · exact ih v s v' s' h i hij
    · rw [if_neg hv] at h
      cases hf : f j (v, s) with
      | none => rw [hf] at h; exact absurd h (by simp)
      | some st1 =>
        rw [hf] at h
        rcases List.mem_cons.mp hi with hij | hij
        · have hj : j ∈ st1.1 := Hmem j v s st1.1 st1.2 (by rw [hf])
          exact hij ▸ (runRoots_stepOK f Hf js st1.1 st1.2 v' s' h).1 j hj
        · exact ih st1.1 st1.2 v' s' h i hij

/-! ## Fuel sufficiency -/

/-- Number of nodes of `0..n-1` not yet visited. -/
def unvisited (n : Nat) (v : List Nat) : Nat :=
  ((List.range n).filter (fun x => decide (x ∉ v))).length

theorem unvisited_le (n : Nat) (v : List Nat) : unvisited n v ≤ n :=
  le_trans (List.length_filter_le _ _) (by simp)

theorem unvisited_mono {v v' : List Nat} (n : Nat) (h : ∀ x ∈ v, x ∈ v') :
    unvisited n v' ≤ unvisited n v := by
  apply List.Sublist.length_le
  apply List.monotone_filter_right
  intro a ha
  simp only [decide_eq_true_eq] at ha ⊢
  exact fun hv => ha (h a hv)

theorem unvisited_cons_lt {x n : Nat} {v : List Nat} (hn : x < n)
    (hv : x ∉ v) : unvisited n (x :: v) < unvisited n v := by
  have hsub : ((List.range n).filter (fun y => decide (y ∉ x :: v))).Sublist
      ((List.range n).filter (fun y => decide (y ∉ v))) := by
    apply List.monotone_filter_right
    intro a ha
    simp only [decide_eq_true_eq, List.mem_cons, not_or] at ha ⊢
    exact ha.2
  refine lt_of_le_of_ne hsub.length_le (fun heq => ?_)
  have heqlist := hsub.eq_of_length heq
  have hx1 : x ∈ (List.range n).filter (fun y => decide (y ∉ v)) := by
    simp [List.mem_filter, List.mem_range, hn, hv]
  rw [← heqlist] at hx1
  simp [List.mem_filter] at hx1

/-- The successor loop completes whenever each underlying call does on
nodes below `n` with spare fuel. -/
theorem dfsLoop_total
    (f : Nat → List Nat × List Nat → Option (List Nat × List Nat))
    (n B : Nat)
    (Hstep : ∀ p v s v' s', f p (v, s) = some (v', s') → StepOK v s v' s')
    (Htot : ∀ p v s, p < n → unvisited n v < B → ∃ r, f p (v, s) = some r) :
    ∀ (l : List Nat) (v s : List Nat), (∀ x ∈ l, x < n) →
      unvisited n v < B → ∃ r, dfsLoop f l (v, s) = some r := by
  intro l
  induction l with
  | nil => exact fun v s _ _ => ⟨(v, s), rfl⟩
  | cons p ps ih =>
    intro v s hl hB
    obtain ⟨r, hr⟩ := Htot p v s (hl p (List.mem_cons_self p ps)) hB
    have hso := Hstep p v s r.1 r.2 (by rw [hr])
    have hle : unvisited n r.1 ≤ unvisited n v := unvisited_mono n hso.1
    obtain ⟨r2, hr2⟩ := ih r.1 r.2 (fun x hx => hl x (List.mem_cons_of_mem p hx))
      (lt_of_le_of_lt hle hB)
    exact ⟨r2, by simp only [dfsLoop, hr]; exact hr2⟩

/-- `dfs` always completes when the fuel exceeds the number of unvisited
nodes: this is the cycle-safety argument — each recursive level visits a
fresh node, so the depth is bounded by the number of nodes. -/
theorem dfs_total (succ : Nat → List Nat) (n : Nat)
    (hsucc : ∀ i, ∀ j ∈ succ i, j < n) :
    ∀ (fuel node : Nat) (v s : List Nat), node < n →
      unvisited n v < fuel → ∃ r, dfs succ fuel node (v, s) = some r := by
  intro fuel
  induction fuel with
  | zero => intro node v s _ h; omega
  | succ fuel ih =>
    intro node v s hn hB
    by_cases hv : node ∈ v
    · exact ⟨(v, s), by simp [dfs, hv]⟩
    · have hlt : unvisited n (node :: v) < fuel :=
        lt_of_lt_of_le (unvisited_cons_lt hn hv) (Nat.lt_succ_iff.mp hB)
      obtain ⟨r, hr⟩ := dfsLoop_total (fun p st2 => dfs succ fuel p st2) n fuel
        (fun p a b c d hc => dfs_stepOK succ fuel p a b c d hc)
        (fun p a b hp hub => ih p a b hp hub)
        (succ node) (node :: v) s (hsucc node) hlt
      exact ⟨(r.1, r.2 ++ [node]), by simp only [dfs, if_neg hv, hr]⟩

/-- The root loop always completes with fuel `n + 1` on roots below `n`. -/
theorem runRoots_total (succ : Nat → List Nat) (n : Nat)
    (hsucc : ∀ i, ∀ j ∈ succ i, j < n) :
    ∀ (l : List Nat) (v s : List Nat), (∀ x ∈ l, x < n) →
      ∃ r, runRoots (dfs succ (n + 1)) l (v, s) = some r := by
  intro l
  induction l with
  | nil => exact fun v s _ => ⟨(v, s), rfl⟩
  | cons i is ih =>
    intro v s hl
    by_cases hv : i ∈ v
    · obtain ⟨r, hr⟩ := ih v s (fun x hx => hl x (List.mem_cons_of_mem i hx))
      exact ⟨r, by simp only [runRoots, if_pos hv]; exact hr⟩
    · obtain ⟨r1, hr1⟩ := dfs_total succ n hsucc (n + 1) i v s
        (hl i (List.mem_cons_self i is)) (Nat.lt_succ_of_le (unvisited_le n v))
      obtain ⟨r2, hr2⟩ := ih r1.1 r1.2 (fun x hx => hl x (List.mem_cons_of_mem i hx))
      exact ⟨r2, by simp only [runRoots, if_neg hv, hr1]; exact hr2⟩

/-! ## Visited nodes stay in range -/

theorem dfsLoop_lt
    (f : Nat → List Nat × List Nat → Option (List Nat × List Nat)) (n : Nat)
    (Hlt : ∀ p v s v' s', p < n → f p (v, s) = some (v', s') →
      ∀ x ∈ v', x ∈ v ∨ x < n) :
    ∀ (l : List Nat) (v s v' s' : List Nat), (∀ x ∈ l, x < n) →
      dfsLoop f l (v, s) = some (v', s') → ∀ x ∈ v', x ∈ v ∨ x < n := by
  intro l
  induction l with
  | nil =>
    intro v s v' s' _ h x hx
    simp only [dfsLoop, Option.some.injEq, Prod.mk.injEq] at h
    exact Or.inl (h.1 ▸ hx)
  | cons p ps ih =>
    intro v s v' s' hl h x hx
    simp only [dfsLoop] at h
    cases hf : f p (v, s) with
    | none => rw [hf] at h; exact absurd h (by simp)
    | some st1 =>
      rw [hf] at h
      rcases ih st1.1 st1.2 v' s' (fun y hy => hl y (List.mem_cons_of_mem p hy))
          h x hx with h1 | h1
      · exact Hlt p v s st1.1 st1.2 (hl p (List.mem_cons_self p ps)) (by rw [hf]) x h1
      · exact Or.inr h1

theorem dfs_lt (succ : Nat → List Nat) (n : Nat)
    (hsucc : ∀ i, ∀ j ∈ succ i, j < n) :
    ∀ (fuel node : Nat) (v s v' s' : List Nat), node < n →
      dfs succ fuel node (v, s) = some (v', s') → ∀ x ∈ v', x ∈ v ∨ x < n := by
  intro fuel
  induction fuel with
  | zero => intro node v s v' s' _ h; simp [dfs] at h
  | succ fuel ih =>
    intro node v s v' s' hn h x hx
    simp only [dfs] at h
    by_cases hv : node ∈ v
    · rw [if_pos hv] at h
      simp only [Option.some.injEq, Prod.mk.injEq] at h
      exact Or.inl (h.1 ▸ hx)
    · rw [if_neg hv] at h
      cases hloop : dfsLoop (fun p st2 => dfs succ fuel p st2) (succ node)
          (node :: v, s) with
      | none => rw [hloop] at h; exact absurd h (by simp)
      | some st1 =>
        rw [hloop] at h
        simp only [Option.some.injEq, Prod.mk.injEq] at h
        rcases dfsLoop_lt _ n (fun p a b c d hp hc => ih p a b c d hp hc)
            (succ node) (node :: v) s st1.1 st1.2 (hsucc node) hloop x
            (h.1 ▸ hx) with h1 | h1
        · rcases List.mem_cons.mp h1 with h2 | h2
          · exact Or.inr (h2 ▸ hn)
          · exact Or.inl h2
        · exact Or.inr h1

theorem runRoots_lt (succ : Nat → List Nat) (n fuel : Nat)
    (hsucc : ∀ i, ∀ j ∈ succ i, j < n) :
    ∀ (l : List Nat) (v s v' s' : List Nat), (∀ x ∈ l, x < n) →
      runRoots (dfs succ fuel) l (v, s) = some (v', s') →
      ∀ x ∈ v', x ∈ v ∨ x < n := by
  intro l
  induction l with
  | nil =>
    intro v s v' s' _ h x hx
    simp only [runRoots, Option.some.injEq, Prod.mk.injEq] at h
    exact Or.inl (h.1 ▸ hx)
  | cons i is ih =>
    intro v s v' s' hl h x hx
    simp only [runRoots] at h
    by_cases hv : i ∈ v
    · rw [if_pos hv] at h
      exact ih v s v' s' (fun y hy => hl y (List.mem_cons_of_mem i hy)) h x hx
    · rw [if_neg hv] at h
      cases hf : dfs succ fuel i (v, s) with
      | none => rw [hf] at h; exact absurd h (by simp)
      | some st1 =>
        rw [hf] at h
        rcases ih st1.1 st1.2 v' s' (fun y hy => hl y (List.mem_cons_of_mem i hy))
            h x hx with h1 | h1
        · exact dfs_lt succ n hsucc fuel i v s st1.1 st1.2
            (hl i (List.mem_cons_self i is)) (by rw [hf]) x h1
        · exact Or.inr h1

/-! ## Engine-level structure lemmas -/

theorem course_id_map_lt {courses : List Course} {cid : String} {j : Nat}
    (h : course_id_map courses cid = some j) : j < courses.length := by
  unfold course_id_map at h
  set fl := (List.range courses.length).filter
    (fun i => (getCourse courses i).id == cid) with hfl
  have hne : fl ≠ [] := by
    intro he
    rw [he] at h
    simp at h
  rw [List.getLast?_eq_getLast fl hne, Option.some.injEq] at h
  have hmem : j ∈ fl := h ▸ List.getLast_mem hne
  exact List.mem_range.mp (List.mem_filter.mp hmem).1

theorem dedupFirst_sub {l : List Nat} {x : Nat} (h : x ∈ dedupFirst l) :
    x ∈ l := by
  unfold dedupFirst at h
  suffices H : ∀ (l : List Nat) (acc : List Nat),
      x ∈ l.foldl (fun acc x => if x ∈ acc then acc else acc ++ [x]) acc →
      x ∈ acc ∨ x ∈ l by
    rcases H l [] h with h1 | h1
    · exact absurd h1 (List.not_mem_nil x)
    · exact h1
  intro l
  induction l with
  | nil => intro acc h; exact Or.inl h
  | cons a as ih =>
    intro acc h
    simp only [List.foldl_cons] at h
    rcases ih _ h with h1 | h1
    · by_cases ha : a ∈ acc
      · rw [if_pos ha] at h1; exact Or.inl h1
      · rw [if_neg ha] at h1
        rcases List.mem_append.mp h1 with h2 | h2
        · exact Or.inl h2
        · simp only [List.mem_singleton] at h2
          exact Or.inr (h2 ▸ List.mem_cons_self a as)
    · exact Or.inr (List.mem_cons_of_mem a h1)

theorem successors_lt {courses : List Course} {j x : Nat}
    (h : x ∈ successors courses j) : x < courses.length := by
  unfold successors at h
  have h1 := dedupFirst_sub h
  obtain ⟨c, _, hc2⟩ := List.mem_flatMap.mp h1
  obtain ⟨cid, _, hcid2⟩ := List.mem_filterMap.mp hc2
  exact course_id_map_lt hcid2

theorem mem_insertDesc {score : Nat → ℚ} {i x : Nat} {l : List Nat} :
    x ∈ insertDesc score i l ↔ x = i ∨ x ∈ l := by
  induction l with
  | nil => simp [insertDesc]
  | cons j js ih =>
    simp only [insertDesc]
    by_cases hc : score j < score i
    · simp [if_pos hc, List.mem_cons]
    · rw [if_neg hc]
      simp only [List.mem_cons, ih]
      tauto

theorem sorted_indices_mem {courses : List Course} {learner_level : Nat}
    {raw : List ℚ} {x : Nat} :
    x ∈ sorted_indices courses learner_level raw ↔ x < courses.length := by
  unfold sorted_indices
  suffices H : ∀ (l : List Nat) (acc : List Nat),
      x ∈ l.foldl (fun acc i =>
        insertDesc (boosted courses learner_level raw) i acc) acc ↔
      x ∈ acc ∨ x ∈ l by
    rw [H (List.range courses.length) []]
    simp [List.mem_range]
  intro l
  induction l with
  | nil => intro acc; simp
  | cons a as ih =>
    intro acc
    simp only [List.foldl_cons, ih, mem_insertDesc, List.mem_cons]
    tauto

/-- Complete characterisation of the DFS run (`main.py` lines 245-266): it
always yields a state `(v, s)` — no infinite loop, even on cyclic
prerequisite data — whose path stack `s` is duplicate-free (each node is
appended at most once) and consists of exactly the catalog indices. -/
theorem dfsRun_spec (courses : List Course) (learner_level : Nat)
    (raw : List ℚ) :
    ∃ v s, dfsRun courses learner_level raw = some (v, s) ∧ s.Nodup ∧
      (∀ x ∈ s, x < courses.length) ∧
      (∀ x, x < courses.length → x ∈ s) ∧ v.Nodup := by
  have hsucc : ∀ i, ∀ j ∈ successors courses i, j < courses.length :=
    fun i j hj => successors_lt hj
  have hroots : ∀ x ∈ sorted_indices courses learner_level raw,
      x < courses.length := fun x hx => sorted_indices_mem.mp hx
  obtain ⟨r, hr⟩ := runRoots_total (successors courses) courses.length hsucc
    (sorted_indices courses learner_level raw) [] [] hroots
  obtain ⟨v, s⟩ := r
  have hstep := runRoots_stepOK (dfs (successors courses) (courses.length + 1))
    (fun p a b c d hc =>
      dfs_stepOK (successors courses) (courses.length + 1) p a b c d hc)
    (sorted_indices courses learner_level raw) [] [] v s hr
  obtain ⟨_, hnd, t, he, htnd, htp, hcov⟩ := hstep
  rw [List.nil_append] at he
  subst he
  have hvs : ∀ x ∈ v, x ∈ s := by
    intro x hx
    rcases hcov x hx with h1 | h1
    · exact absurd h1 (List.not_mem_nil x)
    · exact h1
  have hsv : ∀ x ∈ s, x ∈ v := fun x hx => (htp x hx).2
  refine ⟨v, s, hr, htnd, ?_, ?_, hnd List.nodup_nil⟩
  · intro x hx
    rcases runRoots_lt (successors courses) courses.length (courses.length + 1)
        hsucc (sorted_indices courses learner_level raw) [] [] v s hroots hr x
        (hsv x hx) with h1 | h1
    · exact absurd h1 (List.not_mem_nil x)
    · exact h1
  · intro x hx
    have hxv : x ∈ v := runRoots_visits
      (dfs (successors courses) (courses.length + 1))
      (fun p a b c d hc =>
        dfs_stepOK (successors courses) (courses.length + 1) p a b c d hc)
      (fun p a b c d hc =>
        dfs_mem_visited (successors courses) (courses.length + 1) p a b c d hc)
      (sorted_indices courses learner_level raw) [] [] v s hr x
      (sorted_indices_mem.mpr hx)
    exact hvs x hxv

/-! ## Booster and scores-dict lemmas -/

/-- The sequential in-place multiplications of the booster factor into a
product of two independent factors. -/
theorem boostScore_eq (learner_level : Nat) (c : Course) (s : ℚ) :
    boostScore learner_level c s =
      s * (if ((courseLevel c : ℤ) - (learner_level : ℤ)).natAbs ≤ 1
            then 13 / 10 else 1) *
        (if learner_level = 1 ∧ courseDifficulty c = 1 then 6 / 5
         else if 2 ≤ learner_level ∧ 2 ≤ courseDifficulty c then 11 / 10
         else 1) := by
  unfold boostScore
  by_cases h2 : learner_level = 1 ∧ courseDifficulty c = 1
  · rw [if_pos h2, if_pos h2]
    by_cases h1 : ((courseLevel c : ℤ) - (learner_level : ℤ)).natAbs ≤ 1
    · rw [if_pos h1, if_pos h1]
    · rw [if_neg h1, if_neg h1]; ring
  · rw [if_neg h2, if_neg h2]
    by_cases h3 : 2 ≤ learner_level ∧ 2 ≤ courseDifficulty c
    · rw [if_pos h3, if_pos h3]
      by_cases h1 : ((courseLevel c : ℤ) - (learner_level : ℤ)).natAbs ≤ 1
      · rw [if_pos h1, if_pos h1]
      · rw [if_neg h1, if_neg h1]; ring
    · rw [if_neg h3, if_neg h3]
      by_cases h1 : ((courseLevel c : ℤ) - (learner_level : ℤ)).natAbs ≤ 1
      · rw [if_pos h1, if_pos h1]; ring
      · rw [if_neg h1, if_neg h1]; ring

/-- The difficulty factor of the booster is strictly positive. -/
theorem boost_difficulty_factor_pos (learner_level : Nat) (c : Course) :
    (0 : ℚ) < (if learner_level = 1 ∧ courseDifficulty c = 1 then 6 / 5
      else if 2 ≤ learner_level ∧ 2 ≤ courseDifficulty c then 11 / 10
      else 1) := by
  split_ifs <;> norm_num

/-- Distinct catalog ids make index recovery from ids unambiguous. -/
theorem ids_inj {courses : List Course}
    (hnd : (courses.map Course.id).Nodup) {i j : Nat}
    (hi : i < courses.length) (hj : j < courses.length)
    (hid : (getCourse courses i).id = (getCourse courses j).id) : i = j := by
  have hi' : i < (courses.map Course.id).length := by simpa using hi
  have hj' : j < (courses.map Course.id).length := by simpa using hj
  have h1 : (courses.map Course.id)[i] = (courses.map Course.id)[j] := by
    rw [List.getElem_map, List.getElem_map]
    unfold getCourse at hid
    rwa [List.getD_eq_getElem courses default hi,
      List.getD_eq_getElem courses default hj] at hid
  exact (hnd.getElem_inj_iff).mp h1

theorem keys_dictInsert_self (d : List (String × ℚ)) (k : String) (v : ℚ) :
    k ∈ (dictInsert d k v).map Prod.fst := by
  unfold dictInsert
  by_cases hc : d.any (fun p => p.1 == k) = true
  · rw [if_pos hc]
    obtain ⟨p, hp1, hp2⟩ := List.any_eq_true.mp hc
    rw [beq_iff_eq] at hp2
    refine List.mem_map.mpr ⟨(k, v), ?_, rfl⟩
    refine List.mem_map.mpr ⟨p, hp1, ?_⟩
    rw [if_pos (show (p.1 == k) = true by rw [hp2]; exact beq_self_eq_true k)]
  · rw [if_neg hc]
    simp

theorem keys_dictInsert_mono (d : List (String × ℚ)) (k k' : String) (v : ℚ)
    (h : k' ∈ d.map Prod.fst) : k' ∈ (dictInsert d k v).map Prod.fst := by
  unfold dictInsert
  by_cases hc : d.any (fun p => p.1 == k) = true
  · rw [if_pos hc]
    obtain ⟨p, hp1, hp2⟩ := List.mem_map.mp h
    refine List.mem_map.mpr ⟨if p.1 == k then (k, v) else p, List.mem_map.mpr ⟨p, hp1, rfl⟩, ?_⟩
    by_cases hpk : p.1 == k
    · rw [if_pos hpk, ← hp2]
      exact (beq_iff_eq.mp hpk).symm
    · rw [if_neg hpk]
      exact hp2
  · rw [if_neg hc]
    rw [List.map_append]
    exact List.mem_append.mpr (Or.inl h)

/-- A key inserted somewhere along the scores-dict fold is a key of the
result. -/
theorem mem_keys_scores_fold (ids : Nat → String) (sc : Nat → ℚ) (k : String) :
    ∀ (L : List Nat) (d : List (String × ℚ)),
      (k ∈ d.map Prod.fst ∨ ∃ i ∈ L, ids i = k) →
      k ∈ ((L.foldl (fun d i => dictInsert d (ids i) (sc i)) d).map Prod.fst) := by
  intro L
  induction L with
  | nil =>
    intro d h
    rcases h with h | h
    · exact h
    · obtain ⟨i, hi, _⟩ := h
      exact absurd hi (List.not_mem_nil i)
  | cons a as ih =>
    intro d h
    rw [List.foldl_cons]
    rcases h with h | h
    · exact ih _ (Or.inl (keys_dictInsert_mono d (ids a) k (sc a) h))
    · obtain ⟨i, hi, hik⟩ := h
      rcases List.mem_cons.mp hi with hia | hia
    
      · subst hia
        exact ih _ (Or.inl (hik ▸ keys_dictInsert_self d (ids i) (sc i)))
      · exact ih _ (Or.inr ⟨i, hia, hik⟩)

/-- With pairwise-fresh keys, the scores-dict fold appends exactly the
inserted keys in order. -/
theorem scores_fold_keys_eq (ids : Nat → String) (sc : Nat → ℚ) :
    ∀ (L : List Nat) (d : List (String × ℚ)),
      (∀ i ∈ L, ∀ p ∈ d, p.1 ≠ ids i) → (L.map ids).Nodup →
      ((L.foldl (fun d i => dictInsert d (ids i) (sc i)) d).map Prod.fst) =
        d.map Prod.fst ++ L.map ids := by
  intro L
  induction L with
  | nil => intro d _ _; simp
  | cons a as ih =>
    intro d hfresh hnd
    rw [List.foldl_cons]
    have hfa : d.any (fun p => p.1 == ids a) = false := by
      rw [List.any_eq_false]
      intro p hp
      simp only [beq_iff_eq]
      exact hfresh a (List.mem_cons_self a as) p hp
    have hins : dictInsert d (ids a) (sc a) = d ++ [(ids a, sc a)] := by
      unfold dictInsert
      rw [if_neg (by rw [hfa]; simp)]
    rw [hins]
    rw [List.map_cons, List.nodup_cons] at hnd
    rw [ih (d ++ [(ids a, sc a)]) ?_ hnd.2]
    · simp
    · intro i hi p hp
      rcases List.mem_append.mp hp with h1 | h1
      · exact hfresh i (List.mem_cons_of_mem a hi) p h1
      · rw [List.mem_singleton] at h1
        subst h1
        intro hne
        apply hnd.1
        have hia : ids a = ids i := hne
        rw [hia]
        exact List.mem_map.mpr ⟨i, hi, rfl⟩

/-! ## Claim theorems -/

/-- C9: for every catalog and learner profile (and any raw similarity
scores), the returned `learning_path` contains at most 12 course ids,
regardless of the number of courses in the catalog. -/
theorem c9_path_length_le_twelve (courses : List Course)
    (profile : LearnerProfile) (raw : List ℚ) :
    (filtered_path courses (learnerLevel profile) raw).length ≤ 12 := by
  unfold filtered_path
  rw [List.length_take]
  exact inf_le_left

/-- C8: every course id in the returned `learning_path` belongs to a
catalog index whose final (post-boost) score is strictly positive — no
course with score ≤ 0 ever appears in the output path. -/
theorem c8_path_scores_positive (courses : List Course)
    (profile : LearnerProfile) (raw : List ℚ) (cid : String)
    (hmem : cid ∈ filtered_path courses (learnerLevel profile) raw) :
    ∃ i, i < courses.length ∧ (getCourse courses i).id = cid ∧
      0 < boosted courses (learnerLevel profile) raw i := by
  obtain ⟨v, s, hrun, _, hlt, _, _⟩ :=
    dfsRun_spec courses (learnerLevel profile) raw
  have hps : pathStackRev courses (learnerLevel profile) raw = s.reverse := by
    unfold pathStackRev
    rw [hrun]
    rfl
  unfold filtered_path at hmem
  have hmem2 : cid ∈ (positiveStack courses (learnerLevel profile) raw).map
      (fun i => (getCourse courses i).id) := List.take_subset 12 _ hmem
  obtain ⟨i, hi1, hi2⟩ := List.mem_map.mp hmem2
  unfold positiveStack at hi1
  rw [hps] at hi1
  have hfi := List.mem_filter.mp hi1
  exact ⟨i, hlt i (List.mem_reverse.mp hfi.1), hi2, of_decide_eq_true hfi.2⟩

/-- C8 witness: on a one-course catalog with raw score 1, the course id
"c1" is in the path and the theorem yields its positive-score index. -/
theorem c8_path_scores_positive_witness :
    ∃ i, i < catalogSolo.length ∧ (getCourse catalogSolo i).id = "c1" ∧
      0 < boosted catalogSolo (learnerLevel profileU) [1] i :=
  c8_path_scores_positive catalogSolo profileU [1] "c1"
    (by with_unfolding_all decide)

/-- C10: if the catalog's course ids are pairwise distinct, each id appears
at most once in the returned `learning_path`: the DFS visited set makes the
path stack duplicate-free, and filtering/truncation preserve that. -/
theorem c10_path_ids_nodup (courses : List Course) (profile : LearnerProfile)
    (raw : List ℚ) (hnd : (courses.map Course.id).Nodup) :
    (filtered_path courses (learnerLevel profile) raw).Nodup := by
  obtain ⟨v, s, hrun, hsnd, hlt, _, _⟩ :=
    dfsRun_spec courses (learnerLevel profile) raw
  have hps : positiveStack courses (learnerLevel profile) raw =
      s.reverse.filter
        (fun i => decide (0 < boosted courses (learnerLevel profile) raw i)) := by
    unfold positiveStack pathStackRev
    rw [hrun]
    rfl
  have h1 : (positiveStack courses (learnerLevel profile) raw).Nodup := by
    rw [hps]
    exact List.Nodup.filter _ (List.nodup_reverse.mpr hsnd)
  have hsub : ∀ x ∈ positiveStack courses (learnerLevel profile) raw,
      x < courses.length := by
    intro x hx
    rw [hps] at hx
    exact hlt x (List.mem_reverse.mp (List.mem_filter.mp hx).1)
  have hmap : ((positiveStack courses (learnerLevel profile) raw).map
      (fun i => (getCourse courses i).id)).Nodup :=
    List.Nodup.map_on
      (fun x hx y hy hxy => ids_inj hnd (hsub x hx) (hsub y hy) hxy) h1
  unfold filtered_path
  exact List.Nodup.sublist (List.take_sublist 12 _) hmap

/-- C10 witness: the two-course catalog has distinct ids and its emitted
path has no duplicates. -/
theorem c10_path_ids_nodup_witness :
    (catalogPair.map Course.id).Nodup ∧
      (filtered_path catalogPair (learnerLevel profileU) [1, 1]).Nodup :=
  ⟨by decide, c10_path_ids_nodup catalogPair profileU [1, 1] (by decide)⟩

/-- C6: for every catalog — including catalogs whose prerequisite
references form cycles — the DFS-based selector completes within fuel
`n + 1` (each node is visited at most once, already-visited nodes being
skipped) and produces an ordering: no infinite loop. -/
theorem c6_selector_terminates (courses : List Course)
    (profile : LearnerProfile) (raw : List ℚ) :
    ∃ v s, dfsRun courses (learnerLevel profile) raw = some (v, s) ∧
      v.Nodup ∧ s.Nodup := by
  obtain ⟨v, s, hrun, hsnd, _, _, hvnd⟩ :=
    dfsRun_spec courses (learnerLevel profile) raw
  exact ⟨v, s, hrun, hvnd, hsnd⟩

/-- C1 (amended): every course id in the returned `learning_path` appears
as a key of the returned `scores` map (the converse of the claim; the
scores map is built from the untruncated positive-score stack and may hold
ids beyond the 12-entry path). -/
theorem c1_path_ids_in_scores (courses : List Course)
    (profile : LearnerProfile) (raw : List ℚ) (cid : String)
    (hmem : cid ∈ filtered_path courses (learnerLevel profile) raw) :
    cid ∈ (scores_map courses (learnerLevel profile) raw).map Prod.fst := by
  unfold filtered_path at hmem
  have hmem2 := List.take_subset 12 _ hmem
  obtain ⟨i, hi1, hi2⟩ := List.mem_map.mp hmem2
  unfold scores_map
  exact mem_keys_scores_fold _ _ cid
    (positiveStack courses (learnerLevel profile) raw) [] (Or.inr ⟨i, hi1, hi2⟩)

/-- C1 witness: on the two-course catalog, "c2" is in the emitted path and
therefore among the scores keys. -/
theorem c1_path_ids_in_scores_witness :
    "c2" ∈ filtered_path catalogPair (learnerLevel profileU) [1, 1] ∧
      "c2" ∈ (scores_map catalogPair (learnerLevel profileU) [1, 1]).map
        Prod.fst := by
  have hmem : "c2" ∈ filtered_path catalogPair (learnerLevel profileU) [1, 1] := by
    with_unfolding_all decide
  exact ⟨hmem, c1_path_ids_in_scores catalogPair profileU [1, 1] "c2" hmem⟩

/-- C1 counterexample: on a 13-course catalog where all post-boost scores
are positive, the returned `scores` map holds 13 keys while the
`learning_path` is truncated to 12 entries, so some scores key is not in
the path — the claim "every scores key is in the path" is false. -/
theorem c1_scores_key_not_in_path :
    ¬ (∀ k ∈ (scores_map cat13 (learnerLevel profileU) raw13).map Prod.fst,
        k ∈ filtered_path cat13 (learnerLevel profileU) raw13) := by
  intro hcl
  obtain ⟨v, s, hrun, hsnd, hlt, hall, _⟩ :=
    dfsRun_spec cat13 (learnerLevel profileU) raw13
  have hlen13 : cat13.length = 13 := by decide
  have hposall : ∀ i, i < 13 →
      (0 : ℚ) < boosted cat13 (learnerLevel profileU) raw13 i := by
    with_unfolding_all decide
  have hps : positiveStack cat13 (learnerLevel profileU) raw13 =
      s.reverse.filter
        (fun i => decide (0 < boosted cat13 (learnerLevel profileU) raw13 i)) := by
    unfold positiveStack pathStackRev
    rw [hrun]
    rfl
  have hpos_eq : positiveStack cat13 (learnerLevel profileU) raw13 =
      s.reverse := by
    rw [hps]
    apply List.filter_eq_self.mpr
    intro a ha
    exact decide_eq_true
      (hposall a (hlen13 ▸ hlt a (List.mem_reverse.mp ha)))
  have hfs : s.toFinset = Finset.range 13 := by
    ext x
    simp only [List.mem_toFinset, Finset.mem_range]
    exact ⟨fun hx => hlen13 ▸ hlt x hx, fun hx => hall x (by rw [hlen13]; exact hx)⟩
  have hslen : s.length = 13 := by
    rw [← List.toFinset_card_of_nodup hsnd, hfs, Finset.card_range]
  have hidsnd : (cat13.map Course.id).Nodup := by decide
  have hmapnd : ((positiveStack cat13 (learnerLevel profileU) raw13).map
      (fun i => (getCourse cat13 i).id)).Nodup := by
    rw [hpos_eq]
    apply List.Nodup.map_on
    · intro x hx y hy hxy
      exact ids_inj hidsnd (hlt x (List.mem_reverse.mp hx))
        (hlt y (List.mem_reverse.mp hy)) hxy
    · exact List.nodup_reverse.mpr hsnd
  have hkeys : (scores_map cat13 (learnerLevel profileU) raw13).map Prod.fst =
      (positiveStack cat13 (learnerLevel profileU) raw13).map
        (fun i => (getCourse cat13 i).id) := by
    unfold scores_map
    rw [scores_fold_keys_eq (fun i => (getCourse cat13 i).id)
      (fun i => boosted cat13 (learnerLevel profileU) raw13 i)
      (positiveStack cat13 (learnerLevel profileU) raw13) []
      (fun i _ p hp => absurd hp (List.not_mem_nil p)) hmapnd]
    simp
  have hkeysnd : ((scores_map cat13 (learnerLevel profileU) raw13).map
      Prod.fst).Nodup := hkeys ▸ hmapnd
  have hkeyslen : ((scores_map cat13 (learnerLevel profileU) raw13).map
      Prod.fst).length = 13 := by
    rw [hkeys, List.length_map, hpos_eq, List.length_reverse, hslen]
  have hpathlen : (filtered_path cat13 (learnerLevel profileU) raw13).length
      ≤ 12 := by
    unfold filtered_path
    rw [List.length_take]
    exact inf_le_left
  have hcard1 : ((scores_map cat13 (learnerLevel profileU) raw13).map
      Prod.fst).toFinset.card ≤
      (filtered_path cat13 (learnerLevel profileU) raw13).toFinset.card := by
    apply Finset.card_le_card
    intro x hx
    exact List.mem_toFinset.mpr (hcl x (List.mem_toFinset.mp hx))
  rw [List.toFinset_card_of_nodup hkeysnd, hkeyslen] at hcard1
  have hcard2 := List.toFinset_card_le
    (filtered_path cat13 (learnerLevel profileU) raw13)
  omega

/-- C7: the booster multiplies by 1.3 exactly on the education-match rule
and, exclusively, by 1.2 on the (learner=1, difficulty=1) rule or by 1.1 on
the (learner≥2, difficulty≥2) rule; ordinals come from the fixed tables
with defaults 2 for unknown course and learner education levels and 1 for
unknown difficulty. -/
theorem c7_boost_characterization (profile : LearnerProfile) (c : Course)
    (s : ℚ) :
    boostScore (learnerLevel profile) c s =
      s * (if ((courseLevel c : ℤ) - (learnerLevel profile : ℤ)).natAbs ≤ 1
            then 13 / 10 else 1) *
        (if learnerLevel profile = 1 ∧ courseDifficulty c = 1 then 6 / 5
         else if 2 ≤ learnerLevel profile ∧ 2 ≤ courseDifficulty c
         then 11 / 10 else 1) ∧
    ¬ ((learnerLevel profile = 1 ∧ courseDifficulty c = 1) ∧
        (2 ≤ learnerLevel profile ∧ 2 ≤ courseDifficulty c)) ∧
    (∀ (c' : Course) (e : String), c'.education_level = some e →
      level_mapping e = none → courseLevel c' = 2) ∧
    (∀ c' : Course, c'.education_level = none → courseLevel c' = 2) ∧
    (level_mapping profile.education_level = none → learnerLevel profile = 2) ∧
    (∀ (c' : Course) (d : String), c'.difficulty_level = some d →
      difficulty_mapping d = none → courseDifficulty c' = 1) ∧
    (∀ c' : Course, c'.difficulty_level = none → courseDifficulty c' = 1) := by
  refine ⟨boostScore_eq (learnerLevel profile) c s, ?_, ?_, ?_, ?_, ?_, ?_⟩
  · rintro ⟨⟨h1, _⟩, ⟨h2, _⟩⟩
    omega
  · intro c' e he hm
    unfold courseLevel
    rw [he, Option.getD_some, hm, Option.getD_none]
  · intro c' he
    unfold courseLevel
    rw [he]
    rfl
  · intro hm
    unfold learnerLevel
    rw [hm, Option.getD_none]
  · intro c' d hd hm
    unfold courseDifficulty
    rw [hd, Option.getD_some, hm, Option.getD_none]
  · intro c' hd
    unfold courseDifficulty
    rw [hd]
    rfl

/-- C7 witness: concrete instantiations — a Graduate/Advanced course for a
level-2 learner gets factor 1.3 · 1.1, and the unknown-value defaults. -/
theorem c7_boost_characterization_witness :
    boostScore (learnerLevel profileU) courseNear 1 = 13 / 10 ∧
    courseLevel { courseC1 with education_level := some "Bootcamp" } = 2 ∧
    courseLevel courseC1 = 2 ∧
    learnerLevel profileX = 2 ∧
    courseDifficulty { courseC1 with difficulty_level := some "Expert" } = 1 ∧
    courseDifficulty courseC1 = 1 := by
  obtain ⟨h1, _, h3, h4, _, h6, h7⟩ :=
    c7_boost_characterization profileU courseNear 1
  obtain ⟨_, _, _, _, h5, _, _⟩ :=
    c7_boost_characterization profileX courseNear 1
  refine ⟨h1.trans (by with_unfolding_all decide), ?_, ?_, ?_, ?_, ?_⟩
  · exact h3 _ "Bootcamp" rfl rfl
  · exact h4 courseC1 rfl
  · exact h5 rfl
  · exact h6 _ "Expert" rfl rfl
  · exact h7 courseC1 rfl

/-- C4 counterexample: with shared pre-boost score 0 the education-matching
course's post-boost score equals (not exceeds) the non-matching one's, so
"strictly greater for every value of the shared pre-boost score" is false. -/
theorem c4_zero_score_no_strict_boost :
    ((courseLevel courseNear : ℤ) - (learnerLevel profileU : ℤ)).natAbs ≤ 1 ∧
    ¬ ((courseLevel courseFar : ℤ) - (learnerLevel profileU : ℤ)).natAbs ≤ 1 ∧
    courseDifficulty courseNear = courseDifficulty courseFar ∧
    ¬ (boostScore (learnerLevel profileU) courseFar 0 <
        boostScore (learnerLevel profileU) courseNear 0) := by
  with_unfolding_all decide

/-- C4 (amended): for two courses with the same difficulty ordinal and the
same strictly positive pre-boost score, of which exactly the first
satisfies the education-match rule, the matching course's post-boost score
is strictly greater. -/
theorem c4_boost_monotone_pos (profile : LearnerProfile) (cm cn : Course)
    (s : ℚ) (hd : courseDifficulty cm = courseDifficulty cn)
    (h1 : ((courseLevel cm : ℤ) - (learnerLevel profile : ℤ)).natAbs ≤ 1)
    (h2 : ¬ ((courseLevel cn : ℤ) - (learnerLevel profile : ℤ)).natAbs ≤ 1)
    (hs : 0 < s) :
    boostScore (learnerLevel profile) cn s <
      boostScore (learnerLevel profile) cm s := by
  rw [boostScore_eq, boostScore_eq, if_pos h1, if_neg h2, hd]
  have hF := boost_difficulty_factor_pos (learnerLevel profile) cn
  set F := (if learnerLevel profile = 1 ∧ courseDifficulty cn = 1
    then (6 : ℚ) / 5
    else if 2 ≤ learnerLevel profile ∧ 2 ≤ courseDifficulty cn
    then 11 / 10 else 1) with hFdef
  nlinarith [mul_pos hs hF]

/-- C4 witness: learner level 2, matching Graduate course vs non-matching
Professional course, both Beginner, shared positive score 1. -/
theorem c4_boost_monotone_pos_witness :
    boostScore (learnerLevel profileU) courseFar 1 <
      boostScore (learnerLevel profileU) courseNear 1 :=
  c4_boost_monotone_pos profileU courseNear courseFar 1 (by decide)
    (by decide) (by decide) (by norm_num)

/-- C5: the spec's own two-course example violates prerequisite ordering.
The built graph has the single edge 1 → 0 (course "c2" depends on
prerequisite "c1", no cycle), yet the emitted sequence is ["c2", "c1"]:
the prerequisite comes strictly AFTER the dependent course. The DFS
post-order already emits prerequisites first, and the extra
`path_stack.reverse()` of `main.py` line 268 (commented "Reverse to get
prerequisites first") inverts it. -/
theorem c5_prereq_emitted_after_dependent :
    successors catalogPair 1 = [0] ∧ successors catalogPair 0 = [] ∧
    filtered_path catalogPair (learnerLevel profileU) [1, 1] = ["c2", "c1"] := by
  with_unfolding_all decide

/-- C2: on an empty catalog the endpoint does not return the 404 raised at
`main.py` line 150 — the blanket `except Exception` of line 325 catches
fastapi's `HTTPException` and re-raises it as a 500 whose detail embeds the
original message, so the caller sees an internal error, not a not-found. -/
theorem c2_empty_catalog_becomes_500 :
    generate_learning_path [] profileU [] =
      Except.error ⟨500,
        "Internal server error: 404: No courses found in database"⟩ := by
  rfl

/-- C3: the persisted relevance-scores mapping is keyed by stringified
CATALOG INDICES, not course ids: on a one-course catalog with id "c1" the
stored keys are exactly ["0"], and "0" is not the string form of any
catalog course id. -/
theorem c3_saved_scores_keys_are_indices :
    (savedRecord catalogSolo profileU [1]).relevance_scores.map Prod.fst
        = ["0"] ∧
    ¬ (∀ k ∈ (savedRecord catalogSolo profileU [1]).relevance_scores.map
        Prod.fst, ∃ c ∈ catalogSolo, c.id = k) := by
  with_unfolding_all decide
